import Mathlib

/-!
A shallow embedding of the task-queue scheduler in
`src/fdbclient/TaskBucket.actor.cpp` (FoundationDB's `TaskBucket`).

Modelling conventions:

* Byte strings (keys, values, task UIDs, parameter names) are `List Nat`
  (`Bytes`), each entry a byte, ordered by `bytesLt`, the byte-lexicographic
  order.  FoundationDB's tuple encoding preserves component order under
  byte-lexicographic key order, so composite keys are modelled as tuples of
  their components ordered lexicographically.
* The single shared key-value store is a `Store`: the rows of the
  `avp/<pri>/<uid>/<param>` sub-space and of the `to/<lease>/<uid>/<param>`
  sub-space each as an ordered row list, the `task_count` key, the `ac` key,
  and the keys outside the bucket's own key space (used by validation keys)
  as `userKV`.
* A transaction's effects are modelled by explicit state passing; a C++
  `throw` aborting a transaction is an `Except.error` carrying no state
  (no write of the failed transaction survives); a failed `ASSERT` is `none`.
* Randomness (`g_random`) is passed in as oracle arguments: the probe UIDs
  drawn by `getTaskKey`, the `random01()` draw `r` used for the lease jitter,
  the `CHECK_TIMEOUT_CHANCE` coin, and the fresh id written to `ac`.
* `double` arithmetic in the lease computation is modelled exactly over `ℚ`
  with the C++ cast `(uint64_t)` rendered as `Int.floor` followed by `toNat`
  (the operands are non-negative in every reachable computation).
* `CLIENT_KNOBS` values are the fields of `Knobs`.
-/

namespace TaskBucket

/-- A byte string: values, task UIDs, parameter names and keys. -/
abbrev Bytes := List Nat

/-- Byte-lexicographic strict order on byte strings. -/
def bytesLt : Bytes → Bytes → Bool
  | [], [] => false
  | [], _ :: _ => true
  | _ :: _, [] => false
  | a :: as, b :: bs => a < b || (a = b && bytesLt as bs)

/-- Little-endian value of a byte string. -/
def toNatLE : Bytes → Nat
  | [] => 0
  | b :: bs => b % 256 + 256 * toNatLE bs

/-- Little-endian encoding of `n` into exactly `len` bytes (the value is
taken modulo `256 ^ len`, as in the database's atomic-add mutation). -/
def encodeLE : Nat → Nat → Bytes
  | 0, _ => []
  | len + 1, n => n % 256 :: encodeLE len (n / 256)

/-- The two's-complement reading of a little-endian byte string as a signed
64-bit integer, as `memcpy` into an `int64_t` does on a little-endian host
(`BinaryReader::fromStringRef<int64_t>` and `getTaskCount`'s `memcpy`). -/
def decodeInt64LE (v : Bytes) : Int :=
  let n : Nat := toNatLE v % 2 ^ 64
  if n < 2 ^ 63 then (n : Int) else (n : Int) - 2 ^ 64

/-- The store's `AddValue` atomic operation: little-endian addition of the
operand to the current value (absent reads as zero), the result truncated to
the operand's length. -/
def atomicAdd (old : Option Bytes) (operand : Bytes) : Bytes :=
  encodeLE operand.length (toNatLE (old.getD []) + toNatLE operand)

/-- The 8-byte little-endian operand `\x01\x00...\x00` used by `addTask`. -/
def oneLE : Bytes := 1 :: List.replicate 7 0

/-- The 8-byte little-endian operand `\xff...\xff` (−1) used by `finish`. -/
def negOneLE : Bytes := List.replicate 8 255

/-- A task's in-memory parameter map, as an ordered association list from
parameter name to value (`std::map<Key, Value>` in the source). -/
abbrev Params := List (Bytes × Bytes)

/-- Map lookup (`params.find`). -/
def Params.get : Params → Bytes → Option Bytes
  | [], _ => none
  | (k, v) :: ps, key => if k = key then some v else Params.get ps key

/-- Map write `params[key] = value`: ordered insert, replacing an existing
binding. -/
def Params.set : Params → Bytes → Bytes → Params
  | [], key, value => [(key, value)]
  | (k, v) :: ps, key, value =>
    if bytesLt key k then (key, value) :: (k, v) :: ps
    else if key = k then (key, value) :: ps
    else (k, v) :: Params.set ps key value

/-- Strict sortedness of a parameter map's keys (the invariant of a
`std::map` walked in order). -/
def paramsSorted : Params → Bool
  | [] => true
  | [_] => true
  | a :: b :: rest => bytesLt a.1 b.1 && paramsSorted (b :: rest)

/-- Reserved parameter name `type` (ASCII). -/
def keyTypeName : Bytes := [116, 121, 112, 101]

/-- Reserved parameter name `priority` (ASCII). -/
def keyPriorityName : Bytes := [112, 114, 105, 111, 114, 105, 116, 121]

/-- Reserved parameter name `_validkey` (ASCII). -/
def validKeyName : Bytes := [95, 118, 97, 108, 105, 100, 107, 101, 121]

/-- Reserved parameter name `_validvalue` (ASCII). -/
def validValueName : Bytes := [95, 118, 97, 108, 105, 100, 118, 97, 108, 117, 101]

/-- `Task::getPriority`: decode the `priority` parameter as a signed 64-bit
integer, clamp with `std::min<int64_t>` against `TASKBUCKET_MAX_PRIORITY`,
and convert to `unsigned int` (modulo `2 ^ 32`); `0` when absent. -/
def getPriority (maxPriority : Nat) (ps : Params) : Nat :=
  match Params.get ps keyPriorityName with
  | none => 0
  | some v => ((min (decodeInt64LE v) (maxPriority : Int)) % (2 ^ 32 : Int)).toNat

/-- The key of a row in the `avp` or `to` sub-space: for `avp` the components
are (priority, taskUID, paramName); for `to` they are
(leaseVersion, taskUID, paramName). -/
abbrev RowKey := Nat × Bytes × Bytes

/-- Byte-lexicographic order of packed composite keys, via the tuple
encoding's order preservation. -/
def keyLt (a b : RowKey) : Bool :=
  a.1 < b.1 ||
    (a.1 = b.1 && (bytesLt a.2.1 b.2.1 || (a.2.1 = b.2.1 && bytesLt a.2.2 b.2.2)))

/-- A stored row: packed composite key and value. -/
abbrev Row := RowKey × Bytes

/-- `tr->set` on a row sub-space: ordered insert, replacing an existing row. -/
def rowSet : List Row → RowKey → Bytes → List Row
  | [], key, value => [(key, value)]
  | (k, v) :: rs, key, value =>
    if keyLt key k then (key, value) :: (k, v) :: rs
    else if key = k then (key, value) :: rs
    else (k, v) :: rowSet rs key value

/-- Association-list lookup for the flat `userKV` region (`tr->get`). -/
def kvGet : List (Bytes × Bytes) → Bytes → Option Bytes
  | [], _ => none
  | (k, v) :: ps, key => if k = key then some v else kvGet ps key

/-- The persistent state a `TaskBucket` sees: the prioritized available
sub-space `avp`, the lease sub-space `to`, the `task_count` key, the `ac`
heartbeat key, and the keys outside the bucket used by validation. -/
structure Store where
  userKV : List (Bytes × Bytes)
  avp : List Row
  timeouts : List Row
  taskCount : Option Bytes
  ac : Option Bytes
deriving DecidableEq

/-- An in-memory `Task`: the UID (`key`), the lease version (`timeout`), and
the parameter map. -/
structure Task where
  key : Bytes
  timeout : Nat
  params : Params
deriving DecidableEq

/-- The `CLIENT_KNOBS` constants the scheduler reads. -/
structure Knobs where
  maxPriority : Nat
  timeoutVersions : Nat
  jitterOffset : ℚ
  jitterRange : ℚ
  maxTaskKeys : Nat

/-- `TaskBucket::addTask(tr, task)`: write each parameter under
`avp/<task.getPriority()>/<uid>/<param>`, atomically add 1 to `task_count`,
return the UID.  The fresh random UID is the oracle argument `uid`. -/
def addTask (maxPriority : Nat) (st : Store) (task : Task) (uid : Bytes) : Store × Bytes :=
  let pri := getPriority maxPriority task.params
  let st1 := task.params.foldl
    (fun s p => { s with avp := rowSet s.avp (pri, uid, p.1) p.2 }) st
  ({ st1 with taskCount := some (atomicAdd st1.taskCount oneLE) }, uid)

/-- `TaskBucket::setValidationCondition`: set `_validkey` and `_validvalue`
on the task. -/
def setValidationCondition (ps : Params) (vKey vValue : Bytes) : Params :=
  Params.set (Params.set ps validKeyName vKey) validValueName vValue

/-- `actorAddTask` (the body of `addTask(tr, task, validationKey)`): read the
current value at the validation key; if absent, throw (the transaction
performs no write — `Except.error`); otherwise set the validation condition
on the task and add it. -/
def actorAddTask (maxPriority : Nat) (st : Store) (task : Task) (validationKey : Bytes)
    (uid : Bytes) : Except Unit (Store × Bytes) :=
  match kvGet st.userKV validationKey with
  | none => Except.error ()
  | some validationValue =>
    Except.ok (addTask maxPriority st
      { task with params := setValidationCondition task.params validationKey validationValue }
      uid)

/-- `TaskBucket::finish(tr, task)`: atomically add −1 to `task_count` and
clear the lease range `to/<task.timeout>/<task.key>/`. -/
def finish (st : Store) (task : Task) : Store :=
  { st with
    taskCount := some (atomicAdd st.taskCount negOneLE),
    timeouts := st.timeouts.filter (fun r => !(decide (r.1.1 = task.timeout ∧ r.1.2.1 = task.key))) }

/-- `TaskBucketImpl::isFinished`: true iff the lease range
`to/<task.timeout>/<task.key>/` holds no row (a `getRange` with limit 1
returned nothing). -/
def isFinished (st : Store) (task : Task) : Bool :=
  !(st.timeouts.any (fun r => decide (r.1.1 = task.timeout ∧ r.1.2.1 = task.key)))

/-- `TaskBucketImpl::taskVerify`: false when `_validkey` is absent, false
when `_validvalue` is absent, false when the store holds nothing at the
validation key, false when the stored value differs, true otherwise. -/
def taskVerify (st : Store) (ps : Params) : Bool :=
  match Params.get ps validKeyName with
  | none => false
  | some vKey =>
    match Params.get ps validValueName with
    | none => false
    | some vValue =>
      match kvGet st.userKV vKey with
      | none => false
      | some keyValue => decide (keyValue = vValue)

/-- The `verifyTask` flag `doTask` passes to `finishTaskRun`: whether the
task's parameters contain `_validkey`. -/
def hasValidKey (ps : Params) : Bool :=
  (Params.get ps validKeyName).isSome

/-- `TaskBucketImpl::finishTaskRun`: early exit when `isFinished`; else
re-verify when asked and, if invalid, run `TaskBucket::finish` without the
handler's hook; else run the handler's `finish` hook (modelled as the state
transformer `handlerFinish`).  The returned flag records whether the
handler's hook ran. -/
def finishTaskRun (st : Store) (task : Task) (handlerFinish : Store → Store)
    (verifyTask : Bool) : Store × Bool :=
  if isFinished st task then (st, false)
  else
    let validTask := if verifyTask then taskVerify st task.params else true
    if validTask = false then (finish st task, false)
    else (handlerFinish st, true)

/-- `TaskBucketImpl::getTaskCount`: 0 when the `task_count` key is absent;
otherwise `ASSERT` the value has exactly 8 bytes (`none` models the assertion
failing) and `memcpy` it into an `int64_t`. -/
def getTaskCount (st : Store) : Option Int :=
  match st.taskCount with
  | none => some (0 : Int)
  | some val => if val.length = 8 then some (decodeInt64LE val) else none

/-- The scanned range of `requeueTimedOutTasks`: every row of `to/` whose
lease version is at most the transaction's read version. -/
def timedOutRange (st : Store) (endVersion : Nat) : List Row :=
  st.timeouts.filter (fun r => decide (r.1.1 ≤ endVersion))

/-- The loop state of `requeueTimedOutTasks`: the `Task` being materialized
(`key`, `params`), the key at which the current UID group started
(`lastKey`), and the `avp` writes issued so far. -/
structure RAcc where
  key : Bytes
  params : Params
  lastKey : Option RowKey
  writes : List Row

/-- Flushing one materialized task: write each parameter under
`avp/<task.getPriority()>/<task.key>/<param>`. -/
def flushWrites (maxPriority : Nat) (key : Bytes) (ps : Params) : List Row :=
  ps.map (fun p => ((getPriority maxPriority ps, key, p.1), p.2))

/-- One iteration of the `requeueTimedOutTasks` scan loop: on a new UID,
flush the previous task, reset the accumulator and remember this row's key;
then record the parameter. -/
def requeueStep (maxPriority : Nat) (acc : RAcc) (row : Row) : RAcc :=
  if row.1.2.1 ≠ acc.key then
    { key := row.1.2.1,
      params := Params.set [] row.1.2.2 row.2,
      lastKey := some row.1,
      writes := acc.writes ++ flushWrites maxPriority acc.key acc.params }
  else
    { acc with params := Params.set acc.params row.1.2.2 row.2 }

/-- Apply a list of `avp` writes to the store. -/
def applyAvpWrites (st : Store) (ws : List Row) : Store :=
  ws.foldl (fun s w => { s with avp := rowSet s.avp w.1 w.2 }) st

/-- `TaskBucketImpl::requeueTimedOutTasks`: scan up to `maxTaskKeys` rows of
`to/0 .. to/<readVersion>`, group rows by task UID, move each completed group
to its available sub-space; when the scan had more rows, clear only
`[range.begin, lastKey)` (after `ASSERT(lastKey != Key())`, modelled by
`none` on failure); otherwise clear the whole range when anything was read.
Returns the `anyTimeouts` flag together with the new state. -/
def requeueTimedOutTasks (kn : Knobs) (st : Store) (endVersion : Nat) :
    Option (Bool × Store) :=
  let inRange := timedOutRange st endVersion
  let values := inRange.take kn.maxTaskKeys
  let more := decide (kn.maxTaskKeys < inRange.length)
  let acc := values.foldl (requeueStep kn.maxPriority) ⟨[], [], none, []⟩
  let st1 := applyAvpWrites st acc.writes
  if more then
    match acc.lastKey with
    | none => none
    | some lk => some (true, { st1 with timeouts := st1.timeouts.filter (fun r => !(keyLt r.1 lk)) })
  else
    let st2 := applyAvpWrites st1 (flushWrites kn.maxPriority acc.key acc.params)
    if values.isEmpty then some (false, st2)
    else some (true, { st2 with timeouts := st2.timeouts.filter (fun r => !(decide (r.1.1 ≤ endVersion))) })

/-- The (uid, param) components of the rows of `avp/<pri>/`, in key order. -/
def avpUidKeys (st : Store) (pri : Nat) : List (Bytes × Bytes) :=
  st.avp.filterMap (fun r => if r.1.1 = pri then some (r.1.2.1, r.1.2.2) else none)

/-- `TaskBucketImpl::getTaskKey`: resolve `lastLessOrEqual(avp/<pri>/<probe>)`
— the packed probe UID sorts below every row of its own UID, so this is the
greatest row whose UID is strictly below the probe — and, when that falls
outside the sub-space, retry with `maxUIDKey`, which every row is below,
giving the sub-space's last row. -/
def getTaskKey (st : Store) (pri : Nat) (probe : Bytes) : Option (Bytes × Bytes) :=
  let keys := avpUidKeys st pri
  match (keys.filter (fun k => bytesLt k.1 probe)).getLast? with
  | some k => some k
  | none => keys.getLast?

/-- The (param, value) rows of `avp/<pri>/<uid>/`, in key order
(`getRange(taskAvailableSpace.range(), TOO_MANY)`). -/
def taskRows (st : Store) (pri : Nat) (uid : Bytes) : List (Bytes × Bytes) :=
  st.avp.filterMap
    (fun r => if r.1.1 = pri ∧ r.1.2.1 = uid then some (r.1.2.2, r.2) else none)

/-- The lease version computed by `getOne`:
`(uint64_t)version + (uint64_t)(timeout * (JITTER_OFFSET + JITTER_RANGE * random01()))`,
the `double` product taken exactly over `ℚ` and the cast as floor. -/
def leaseTimeout (version timeoutVersions : Nat) (jitterOffset jitterRange r : ℚ) : Nat :=
  (version + (Int.floor ((timeoutVersions : ℚ) * (jitterOffset + jitterRange * r))).toNat) % 2 ^ 64

/-- Follows the spec's words for claim C5 (refinement comparison only):
"lease = V + timeoutVersions * (1 + jitter)" with
"jitter = JITTER_OFFSET + JITTER_RANGE * r". -/
def leaseTimeoutSpec (version timeoutVersions : Nat) (jitterOffset jitterRange r : ℚ) : Nat :=
  (version +
    (Int.floor ((timeoutVersions : ℚ) * (1 + (jitterOffset + jitterRange * r)))).toNat) % 2 ^ 64

/-- `TaskBucketImpl::getOne`, randomness passed as oracles: the
`CHECK_TIMEOUT_CHANCE` coin `checkTimeouts`, one probe UID per priority, the
jitter draw `r`, and the fresh heartbeat id `activeId`; `version` is the
transaction's read version.  The recursive retry after a successful requeue
runs on explicit fuel (`none` when fuel runs out or an `ASSERT` fails); the
oracle draws are reused across retries. -/
def getOneAux (kn : Knobs) (version : Nat) (probes : Nat → Bytes) (checkTimeouts : Bool)
    (r : ℚ) (activeId : Bytes) : Nat → Store → Option (Option Task × Store)
  | 0, _ => none
  | fuel + 1, st =>
    (if checkTimeouts then requeueTimedOutTasks kn st version else some (false, st)).bind
      fun res =>
      let st1 := res.2
      let found := (List.range (kn.maxPriority + 1)).reverse.findSome?
        (fun pri => (getTaskKey st1 pri (probes pri)).map (fun k => (pri, k)))
      match found with
      | none =>
        (requeueTimedOutTasks kn st1 version).bind fun res2 =>
          if res2.1 then getOneAux kn version probes checkTimeouts r activeId fuel res2.2
          else some (none, res2.2)
      | some (pri, taskKey) =>
        let taskUID := taskKey.1
        let rows := taskRows st1 pri taskUID
        let timeout := leaseTimeout version kn.timeoutVersions kn.jitterOffset kn.jitterRange r
        let st2 := rows.foldl
          (fun s pv => { s with timeouts := rowSet s.timeouts (timeout, taskUID, pv.1) pv.2 }) st1
        let st3 := { st2 with
          avp := st2.avp.filter (fun rw => !(decide (rw.1.1 = pri ∧ rw.1.2.1 = taskUID))) }
        let st4 := { st3 with ac := some activeId }
        some (some ⟨taskUID, timeout,
          rows.foldl (fun ps pv => Params.set ps pv.1 pv.2) []⟩, st4)

/-- Modelled from the spec: `TaskFuncBase::isValidTask` and
`TaskFuncBase::create` are declared in `TaskBucket.h`, which is not under
`src/`; per the spec ("Look up handler by `task.type`; if absent or task
invalid, return false" and the name→handler registry) a callback's `finish`
hook runs exactly when the task carries a `type` parameter naming a
registered handler.  `registry` holds the registered handler names. -/
def isValidTask (registry : Bytes → Bool) (ps : Params) : Bool :=
  match Params.get ps keyTypeName with
  | none => false
  | some t => registry t

/-- `TaskFutureImpl::performAction`: when the task is valid and its handler
exists, run the handler's `finish` hook once.  The result lists the
parameter maps the hook was invoked with. -/
def performAction (registry : Bytes → Bool) (ps : Params) : List Params :=
  if isValidTask registry ps then [ps] else []

/-- A row of a future's `cb/` sub-space: ((callbackUID, paramName), value). -/
abbrev CbRow := (Bytes × Bytes) × Bytes

/-- `TaskFutureImpl::performAllActions`: read the whole `cb/` range, clear
it, and fold every row into a single task's parameter map — the row key is
unpacked with `getString(1)`, the parameter name, so the callback UID
component is dropped — then `performAction` once on the merged task.
Returns the merged parameter map and the list of hook invocations. -/
def performAllActions (registry : Bytes → Bool) (cbRows : List CbRow) :
    Params × List Params :=
  let taskParams := cbRows.foldl (fun ps r => Params.set ps r.1.2 r.2) []
  (taskParams, performAction registry taskParams)

/-- The parameter map of one callback UID's rows within `cb/`. -/
def callbackParams (u : Bytes) (cbRows : List CbRow) : Params :=
  (cbRows.filter (fun r => decide (r.1.1 = u))).foldl
    (fun ps r => Params.set ps r.1.2 r.2) []

/-- Follows the spec's words for claim C2 (refinement comparison only):
"reconstructs each callback's parameter map grouped by callback UID, clears
`cb/`, and invokes each callback" — one `performAction` per distinct
callback UID. -/
def performAllActionsSpec (registry : Bytes → Bool) (cbRows : List CbRow) :
    List Params :=
  ((cbRows.map (fun r => r.1.1)).dedup).flatMap
    (fun u => performAction registry (callbackParams u cbRows))

/-- The UID shared by a group of scanned rows (`[]` for an empty group,
matching the freshly constructed `Task()` whose key is empty). -/
def groupUid (g : List Row) : Bytes :=
  match g with
  | [] => []
  | row :: _ => row.1.2.1

/-- The key of the first row of a group. -/
def firstRowKey (g : List Row) : RowKey :=
  match g with
  | [] => (0, [], [])
  | row :: _ => row.1

/-- The parameter map materialized from one UID group of scanned rows. -/
def groupParams (g : List Row) : Params :=
  g.foldl (fun ps r => Params.set ps r.1.2.2 r.2) []

/-- The `avp` writes that flushing one UID group issues. -/
def groupFlush (maxPriority : Nat) (g : List Row) : List Row :=
  flushWrites maxPriority (groupUid g) (groupParams g)

/-- Adjacent groups carry distinct UIDs. -/
def chainedDistinctUids : List (List Row) → Bool
  | [] => true
  | [_] => true
  | a :: b :: rest => decide (groupUid a ≠ groupUid b) && chainedDistinctUids (b :: rest)

/-- Well-formedness of a scan split into UID groups: groups are non-empty,
each row of a group carries the group's UID, adjacent groups carry distinct
UIDs, and no group's UID is the empty string. -/
def groupsWF (gs : List (List Row)) : Bool :=
  gs.all (fun g => !g.isEmpty)
    && gs.all (fun g => g.all (fun r => decide (r.1.2.1 = groupUid g)))
    && chainedDistinctUids gs
    && gs.all (fun g => !(groupUid g).isEmpty)

/-- The first row key of the last group of a scan. -/
def lastGroupFirstKey (gs : List (List Row)) : RowKey :=
  match gs.getLast? with
  | none => (0, [], [])
  | some g => firstRowKey g

/-- The last group of a scan (`[]` when there is none). -/
def lastGroup (gs : List (List Row)) : List Row :=
  (gs.getLast?).getD []

/-- Example store: one leased task `(uid 07, lease 100)`, `task_count = 1`. -/
def exSt1 : Store := ⟨[], [], [((100, [7], [1]), [9])], some (encodeLE 8 1), none⟩

/-- The in-memory handle of the example leased task. -/
def exTask1 : Task := ⟨[7], 100, [([1], [9])]⟩

/-- Example registry holding one handler whose name is the byte `0x0a`. -/
def exRegistry : Bytes → Bool := fun v => decide (v = [10])

/-- Example `cb/` contents: two callbacks under distinct callback UIDs `01`
and `02`, each with three parameters including `type`. -/
def exCbRows : List CbRow :=
  [(([1], [98]), [1]), (([1], [99]), [70]), (([1], keyTypeName), [10]),
   (([2], [98]), [2]), (([2], [99]), [70]), (([2], keyTypeName), [10])]

/-- Knobs with `TASKBUCKET_MAX_TASK_KEYS = 1`, for a cut-short scan. -/
def exKnobs4 : Knobs := ⟨5, 10, 0, 0, 1⟩

/-- Example store: a single timed-out task whose two rows exceed the scan
limit of `exKnobs4`. -/
def exSt4 : Store :=
  ⟨[], [], [((0, [1, 1], [16]), [1]), ((0, [1, 1], [17]), [2])], none, none⟩

/-- Knobs for the lease-formula scenario: `TIMEOUT_VERSIONS = 10`,
`JITTER_OFFSET = 0.9`, `JITTER_RANGE = 0.2`. -/
def exKnobs5 : Knobs := ⟨0, 10, 9 / 10, 1 / 5, 100⟩

/-- Example store: one available task (uid `03`) in priority band 0. -/
def exSt5 : Store := ⟨[], [((0, [3], [20]), [8])], [], none, none⟩

/-- The task `getOne` returns on `exSt5` at read version 0 with jitter draw
`r = 0`. -/
def exTask5 : Task := ⟨[3], leaseTimeout 0 10 (9 / 10) (1 / 5) 0, [([20], [8])]⟩

/-- The store after that claim: rows moved to the lease sub-space, heartbeat
refreshed. -/
def exSt5After : Store :=
  ⟨[], [], [((leaseTimeout 0 10 (9 / 10) (1 / 5) 0, [3], [20]), [8])], none, some [9]⟩

/-- Knobs with `TASKBUCKET_MAX_PRIORITY = 3` and a large scan limit. -/
def exKnobs9 : Knobs := ⟨3, 10, 0, 0, 100⟩

/-- Example store: two timed-out tasks — uid `01` at lease 5 carrying
`priority = 2`, uid `02` at lease 7 with no priority parameter. -/
def exSt9 : Store :=
  ⟨[], [],
   [((5, [1], keyPriorityName), encodeLE 8 2), ((5, [1], [120]), [6]),
    ((7, [2], [119]), [3])],
   some (encodeLE 8 2), none⟩

/-- The scan of `exSt9` split into its two UID groups. -/
def exGs9 : List (List Row) :=
  [[((5, [1], keyPriorityName), encodeLE 8 2), ((5, [1], [120]), [6])],
   [((7, [2], [119]), [3])]]

/-- The store after `requeueTimedOutTasks` on `exSt9`: uid `01` back in band
2, uid `02` back in band 0, lease sub-space empty. -/
def exSt9After : Store :=
  ⟨[],
   [((0, [2], [119]), [3]),
    ((2, [1], keyPriorityName), encodeLE 8 2), ((2, [1], [120]), [6])],
   [], some (encodeLE 8 2), none⟩

/-- Example store for the finish transaction: the validation key `05` holds
`06`, and the lease range of `exTask7` is non-empty. -/
def exSt7 : Store :=
  ⟨[([5], [6])], [], [((100, [7], [1]), [9])], some (encodeLE 8 1), none⟩

/-- A task carrying `_validkey = 05`, `_validvalue = 07` — the store's value
differs. -/
def exTask7 : Task :=
  ⟨[7], 100, [([1], [9]), (validKeyName, [5]), (validValueName, [7])]⟩

/-- Example store whose `userKV` holds `05 ↦ 06`. -/
def exSt8 : Store := ⟨[([5], [6])], [], [], none, none⟩

/-- A plain task with one parameter, to be added with a validation key. -/
def exTask8 : Task := ⟨[], 0, [([97], [1])]⟩

/-- Example store whose `task_count` key holds the 8-byte encoding of 5. -/
def exSt10 : Store := ⟨[], [], [], some (encodeLE 8 5), none⟩

/-- Knobs for the round-trip scenario. -/
def exKnobs3 : Knobs := ⟨3, 10, 9 / 10, 1 / 5, 100⟩

/-- A task with priority 2 and two payload parameters. -/
def exTask3 : Task :=
  ⟨[], 0, [([97], [5]), (keyPriorityName, encodeLE 8 2), ([120], [6])]⟩

/-! ### Byte-codec lemmas -/

theorem toNatLE_encodeLE (len n : Nat) : toNatLE (encodeLE len n) = n % 256 ^ len := by
  induction len generalizing n with
  | zero => simp [encodeLE, toNatLE, Nat.mod_one]
  | succ k ih =>
    show n % 256 % 256 + 256 * toNatLE (encodeLE k (n / 256)) = n % 256 ^ (k + 1)
    rw [Nat.mod_mod_of_dvd n (dvd_refl 256), ih, pow_succ, mul_comm (256 ^ k) 256,
      Nat.mod_mul]

theorem toNatLE_lt (v : Bytes) : toNatLE v < 256 ^ v.length := by
  induction v with
  | nil => simp [toNatLE]
  | cons b bs ih =>
    have hb : b % 256 < 256 := Nat.mod_lt _ (by omega)
    simp only [toNatLE, List.length_cons, pow_succ]
    omega

theorem encodeLE_length (len n : Nat) : (encodeLE len n).length = len := by
  induction len generalizing n with
  | zero => rfl
  | succ k ih => simp [encodeLE, ih]

theorem decodeInt64LE_encodeLE (n : Nat) (h : n < 2 ^ 63) :
    decodeInt64LE (encodeLE 8 n) = (n : Int) := by
  have h256 : (256 : Nat) ^ 8 = 2 ^ 64 := by norm_num
  have hlt : n < 2 ^ 64 := lt_trans h (by norm_num)
  have h3 : toNatLE (encodeLE 8 n) = n := by
    rw [toNatLE_encodeLE, h256, Nat.mod_eq_of_lt hlt]
  simp only [decodeInt64LE, h3, Nat.mod_eq_of_lt hlt, if_pos h]

theorem toNatLE_atomicAdd_negOne (v : Bytes) :
    toNatLE (atomicAdd (some v) negOneLE) = (toNatLE v + (2 ^ 64 - 1)) % 2 ^ 64 := by
  have h1 : toNatLE negOneLE = 2 ^ 64 - 1 := by decide
  have h2 : negOneLE.length = 8 := by decide
  have h256 : (256 : Nat) ^ 8 = 2 ^ 64 := by norm_num
  simp only [atomicAdd, Option.getD_some, h1, h2, toNatLE_encodeLE, h256]

/-! ### Order lemmas -/

theorem bytesLt_irrefl (a : Bytes) : bytesLt a a = false := by
  induction a with
  | nil => rfl
  | cons x xs ih => simp [bytesLt, ih]

theorem bytesLt_trans {a b c : Bytes} (h1 : bytesLt a b = true) (h2 : bytesLt b c = true) :
    bytesLt a c = true := by
  induction a generalizing b c with
  | nil =>
    cases c with
    | nil =>
      cases b with
      | nil => exact h2
      | cons y ys => exact absurd h2 (by simp [bytesLt])
    | cons z zs => rfl
  | cons x xs ih =>
    cases b with
    | nil => exact absurd h1 (by simp [bytesLt])
    | cons y ys =>
      cases c with
      | nil => exact absurd h2 (by simp [bytesLt])
      | cons z zs =>
        simp only [bytesLt, Bool.or_eq_true, Bool.and_eq_true, decide_eq_true_eq] at h1 h2 ⊢
        rcases h1 with h1 | ⟨rfl, h1⟩ <;> rcases h2 with h2 | ⟨rfl, h2⟩
        · exact Or.inl (lt_trans h1 h2)
        · exact Or.inl h1
        · exact Or.inl h2
        · exact Or.inr ⟨rfl, ih h1 h2⟩

theorem bytesLt_ne {a b : Bytes} (h : bytesLt a b = true) : a ≠ b := by
  rintro rfl
  rw [bytesLt_irrefl] at h
  exact Bool.false_ne_true h

theorem bytesLt_asymm {a b : Bytes} (h : bytesLt a b = true) : bytesLt b a = false := by
  rw [Bool.eq_false_iff]
  intro h2
  have h3 := bytesLt_trans h h2
  rw [bytesLt_irrefl] at h3
  exact Bool.false_ne_true h3

theorem bytesLt_connex {a b : Bytes} (h1 : bytesLt a b = false) (h2 : bytesLt b a = false) :
    a = b := by
  induction a generalizing b with
  | nil =>
    cases b with
    | nil => rfl
    | cons y ys => exact absurd h1 (by simp [bytesLt])
  | cons x xs ih =>
    cases b with
    | nil => exact absurd h2 (by simp [bytesLt])
    | cons y ys =>
      have hxy : x = y := by
        by_contra hne
        rcases Nat.lt_or_ge x y with hlt | hge
        · simp [bytesLt, hlt] at h1
        · have hyx : y < x := lt_of_le_of_ne hge (Ne.symm hne)
          simp [bytesLt, hyx] at h2
      subst hxy
      simp [bytesLt] at h1 h2
      rw [ih h1 h2]

theorem keyLt_irrefl (a : RowKey) : keyLt a a = false := by
  simp [keyLt, bytesLt_irrefl]

theorem keyLt_trans {a b c : RowKey} (h1 : keyLt a b = true) (h2 : keyLt b c = true) :
    keyLt a c = true := by
  obtain ⟨a1, a2, a3⟩ := a
  obtain ⟨b1, b2, b3⟩ := b
  obtain ⟨c1, c2, c3⟩ := c
  simp only [keyLt, Bool.or_eq_true, Bool.and_eq_true, decide_eq_true_eq] at h1 h2 ⊢
  rcases h1 with h1 | ⟨rfl, h1 | ⟨rfl, h1⟩⟩ <;>
    rcases h2 with h2 | ⟨rfl, h2 | ⟨rfl, h2⟩⟩
  · exact Or.inl (lt_trans h1 h2)
  · exact Or.inl h1
  · exact Or.inl h1
  · exact Or.inl h2
  · exact Or.inr ⟨rfl, Or.inl (bytesLt_trans h1 h2)⟩
  · exact Or.inr ⟨rfl, Or.inl h1⟩
  · exact Or.inl h2
  · exact Or.inr ⟨rfl, Or.inl h2⟩
  · exact Or.inr ⟨rfl, Or.inr ⟨rfl, bytesLt_trans h1 h2⟩⟩

theorem keyLt_ne {a b : RowKey} (h : keyLt a b = true) : a ≠ b := by
  rintro rfl
  rw [keyLt_irrefl] at h
  exact Bool.false_ne_true h

theorem keyLt_asymm {a b : RowKey} (h : keyLt a b = true) : keyLt b a = false := by
  rw [Bool.eq_false_iff]
  intro h2
  have h3 := keyLt_trans h h2
  rw [keyLt_irrefl] at h3
  exact Bool.false_ne_true h3

theorem keyLt_fixed (c : Nat) (u a b : Bytes) :
    keyLt (c, u, a) (c, u, b) = bytesLt a b := by
  simp [keyLt, bytesLt_irrefl]

/-! ### Ordered-insert lemmas -/

theorem rowSet_append (rs : List Row) (k : RowKey) (v : Bytes)
    (h : ∀ r ∈ rs, keyLt r.1 k = true) : rowSet rs k v = rs ++ [(k, v)] := by
  induction rs with
  | nil => rfl
  | cons r rest ih =>
    obtain ⟨rk, rv⟩ := r
    have h1 : keyLt rk k = true := h (rk, rv) (by simp)
    simp only [rowSet]
    rw [if_neg (by simp [keyLt_asymm h1]), if_neg (Ne.symm (keyLt_ne h1)),
      ih (fun r hr => h r (by simp [hr]))]
    rfl

theorem paramsSet_append (ps : Params) (k v : Bytes)
    (h : ∀ p ∈ ps, bytesLt p.1 k = true) : Params.set ps k v = ps ++ [(k, v)] := by
  induction ps with
  | nil => rfl
  | cons p rest ih =>
    obtain ⟨pk, pv⟩ := p
    have h1 : bytesLt pk k = true := h (pk, pv) (by simp)
    simp only [Params.set]
    rw [if_neg (by simp [bytesLt_asymm h1]), if_neg (Ne.symm (bytesLt_ne h1)),
      ih (fun p hp => h p (by simp [hp]))]
    rfl

theorem paramsSorted_cons {p q : Bytes × Bytes} {rest : Params}
    (h : paramsSorted (p :: q :: rest) = true) :
    bytesLt p.1 q.1 = true ∧ paramsSorted (q :: rest) = true := by
  simpa [paramsSorted, Bool.and_eq_true] using h

theorem paramsSorted_tail {p : Bytes × Bytes} {rest : Params}
    (h : paramsSorted (p :: rest) = true) : paramsSorted rest = true := by
  cases rest with
  | nil => rfl
  | cons q rest => exact (paramsSorted_cons h).2

theorem paramsSorted_head_lt {p : Bytes × Bytes} {rest : Params}
    (h : paramsSorted (p :: rest) = true) :
    ∀ q ∈ rest, bytesLt p.1 q.1 = true := by
  induction rest generalizing p with
  | nil => simp
  | cons q rest ih =>
    intro x hx
    obtain ⟨h1, h2⟩ := paramsSorted_cons h
    rcases List.mem_cons.mp hx with rfl | hx
    · exact h1
    · exact bytesLt_trans h1 (ih h2 x hx)

theorem paramsSetAll_sorted_aux (ps : Params) (acc : Params)
    (hacc : ∀ a ∈ acc, ∀ p ∈ ps, bytesLt a.1 p.1 = true)
    (hs : paramsSorted ps = true) :
    ps.foldl (fun acc p => Params.set acc p.1 p.2) acc = acc ++ ps := by
  induction ps generalizing acc with
  | nil => simp
  | cons p rest ih =>
    have hset : Params.set acc p.1 p.2 = acc ++ [p] := by
      rw [paramsSet_append acc p.1 p.2 (fun a ha => hacc a ha p (by simp))]
    rw [List.foldl_cons, hset, ih (acc ++ [p]) ?_ (paramsSorted_tail hs)]
    · simp
    · intro a ha q hq
      rcases List.mem_append.mp ha with ha | ha
      · exact hacc a ha q (by simp [hq])
      · have : a = p := by simpa using ha
        subst this
        exact paramsSorted_head_lt hs q hq

theorem paramsSetAll_sorted (ps : Params) (hs : paramsSorted ps = true) :
    ps.foldl (fun acc p => Params.set acc p.1 p.2) [] = ps := by
  simpa using paramsSetAll_sorted_aux ps [] (by simp) hs

theorem rowsSetAll_sorted_aux (ps : Params) (pri : Nat) (uid : Bytes) (acc : List Row)
    (hacc : ∀ a ∈ acc, ∀ p ∈ ps, keyLt a.1 (pri, uid, p.1) = true)
    (hs : paramsSorted ps = true) :
    ps.foldl (fun rs p => rowSet rs (pri, uid, p.1) p.2) acc
      = acc ++ ps.map (fun p => ((pri, uid, p.1), p.2)) := by
  induction ps generalizing acc with
  | nil => simp
  | cons p rest ih =>
    have hset : rowSet acc (pri, uid, p.1) p.2 = acc ++ [((pri, uid, p.1), p.2)] := by
      rw [rowSet_append acc _ p.2 (fun a ha => hacc a ha p (by simp))]
    rw [List.foldl_cons, hset, ih (acc ++ [((pri, uid, p.1), p.2)]) ?_ (paramsSorted_tail hs)]
    · simp
    · intro a ha q hq
      rcases List.mem_append.mp ha with ha | ha
      · exact hacc a ha q (by simp [hq])
      · have : a = ((pri, uid, p.1), p.2) := by simpa using ha
        subst this
        rw [keyLt_fixed]
        exact paramsSorted_head_lt hs q hq

theorem rowsSetAll_sorted (ps : Params) (pri : Nat) (uid : Bytes)
    (hs : paramsSorted ps = true) :
    ps.foldl (fun rs p => rowSet rs (pri, uid, p.1) p.2) []
      = ps.map (fun p => ((pri, uid, p.1), p.2)) := by
  simpa using rowsSetAll_sorted_aux ps pri uid [] (by simp) hs

/-! ### Store-fold projections -/

theorem foldl_avp_update {α : Type} (l : List α) (st : Store)
    (f : List Row → α → List Row) :
    l.foldl (fun s x => { s with avp := f s.avp x }) st
      = { st with avp := l.foldl f st.avp } := by
  induction l generalizing st with
  | nil => rfl
  | cons x xs ih => rw [List.foldl_cons, List.foldl_cons, ih]

theorem foldl_timeouts_update {α : Type} (l : List α) (st : Store)
    (f : List Row → α → List Row) :
    l.foldl (fun s x => { s with timeouts := f s.timeouts x }) st
      = { st with timeouts := l.foldl f st.timeouts } := by
  induction l generalizing st with
  | nil => rfl
  | cons x xs ih => rw [List.foldl_cons, List.foldl_cons, ih]

theorem applyAvpWrites_eq (st : Store) (ws : List Row) :
    applyAvpWrites st ws
      = { st with avp := ws.foldl (fun a w => rowSet a w.1 w.2) st.avp } :=
  foldl_avp_update ws st (fun a w => rowSet a w.1 w.2)

theorem applyAvpWrites_append (st : Store) (a b : List Row) :
    applyAvpWrites st (a ++ b) = applyAvpWrites (applyAvpWrites st a) b :=
  List.foldl_append _ _ _ _

/-! ### Finish and verification lemmas -/

theorem isFinished_after_finish (st : Store) (task : Task) :
    isFinished (finish st task) task = true := by
  simp only [isFinished, finish, Bool.not_eq_true']
  rw [List.any_eq_false]
  intro r hr
  rw [List.mem_filter, Bool.not_eq_true'] at hr
  simp [hr.2]

/-- C1 counterexample: on a store with one leased task and `task_count = 1`,
a first `finish` makes the counter 0 but a second identical `finish` call is
not a no-op — it drives the counter to −1. -/
theorem finish_twice_counterexample :
    finish (finish exSt1 exTask1) exTask1 ≠ finish exSt1 exTask1
    ∧ getTaskCount (finish exSt1 exTask1) = some 0
    ∧ getTaskCount (finish (finish exSt1 exTask1) exTask1) = some (-1) := by decide

/-- C1 (amended): a second direct call to `TaskBucket::finish` for the same
`(uid, lease)` is not a no-op: the lease-range clear does nothing (the range
is already empty), but `task_count` is atomically decremented a second time
(modulo `2 ^ 64`).  Idempotence holds one level up: after the first call
`isFinished` is true, so a second finish transaction (`finishTaskRun`)
returns without changing the state or invoking any hook. -/
theorem finish_second_call_behavior (st : Store) (task : Task)
    (handlerFinish : Store → Store) :
    (finish (finish st task) task).timeouts = (finish st task).timeouts
    ∧ toNatLE ((finish (finish st task) task).taskCount.getD [])
        = (toNatLE ((finish st task).taskCount.getD []) + (2 ^ 64 - 1)) % 2 ^ 64
    ∧ isFinished (finish st task) task = true
    ∧ finishTaskRun (finish st task) task handlerFinish (hasValidKey task.params)
        = (finish st task, false) := by
  refine ⟨?_, ?_, isFinished_after_finish st task, ?_⟩
  · simp [finish, List.filter_filter]
  · simp only [finish, Option.getD_some]
    exact toNatLE_atomicAdd_negOne _
  · simp [finishTaskRun, isFinished_after_finish st task]

/-- C6: `taskVerify` returns true exactly when the task carries both
`_validkey` and `_validvalue` and a current read of the store at the
validation key yields exactly the validation value; in every other case it
returns false. -/
theorem taskVerify_characterization (st : Store) (ps : Params) :
    taskVerify st ps = true ↔
      ∃ vk vv, Params.get ps validKeyName = some vk
        ∧ Params.get ps validValueName = some vv
        ∧ kvGet st.userKV vk = some vv := by
  unfold taskVerify
  rcases h1 : Params.get ps validKeyName with _ | vk
  · simp
  · rcases h2 : Params.get ps validValueName with _ | vv
    · simp [h2]
    · rcases h3 : kvGet st.userKV vk with _ | kv
      · simp [h2, h3]
      · simp [h2, h3]

/-- C7: the finish transaction (`finishTaskRun`, with the `verifyTask` flag
`doTask` passes, namely whether the task carries `_validkey`): (i) when the
lease range is already empty it changes nothing and invokes no hook;
(ii) when the task carries `_validkey` and the store's current value at it
differs from the task's `_validvalue` (including either being absent),
`TaskBucket::finish` runs and the handler's hook does not; (iii) otherwise
the handler's hook runs. -/
theorem finishTaskRun_cases (st : Store) (task : Task)
    (handlerFinish : Store → Store) :
    (isFinished st task = true →
      finishTaskRun st task handlerFinish (hasValidKey task.params) = (st, false))
    ∧ (∀ vk, isFinished st task = false →
        Params.get task.params validKeyName = some vk →
        (kvGet st.userKV vk ≠ Params.get task.params validValueName ∨
          kvGet st.userKV vk = none) →
        finishTaskRun st task handlerFinish (hasValidKey task.params)
          = (finish st task, false))
    ∧ (isFinished st task = false →
        (hasValidKey task.params = true → taskVerify st task.params = true) →
        finishTaskRun st task handlerFinish (hasValidKey task.params)
          = (handlerFinish st, true)) := by
  refine ⟨fun h => by simp [finishTaskRun, h], fun vk h hvk hdiff => ?_, fun h hval => ?_⟩
  · have hvalid : taskVerify st task.params = false := by
      unfold taskVerify
      simp only [hvk]
      rcases h2 : Params.get task.params validValueName with _ | vv
      · rfl
      · rcases h3 : kvGet st.userKV vk with _ | sv
        · rfl
        · rcases hdiff with hd | hnone
          · rw [h2, h3] at hd
            simp only [decide_eq_false_iff_not]
            exact fun he => hd (by rw [he])
          · rw [h3] at hnone
            exact absurd hnone (by simp)
    have hvk2 : hasValidKey task.params = true := by simp [hasValidKey, hvk]
    simp [finishTaskRun, h, hvk2, hvalid]
  · by_cases hk : hasValidKey task.params = true
    · simp [finishTaskRun, h, hk, hval hk]
    · have hk2 : hasValidKey task.params = false := by simpa using hk
      simp [finishTaskRun, h, hk2]

/-- Witness for C7: on `exSt7`/`exTask7` the store's value at the validation
key differs, so the finish transaction runs `finish` and skips the hook. -/
theorem finishTaskRun_cases_witness :
    finishTaskRun exSt7 exTask7 id (hasValidKey exTask7.params)
      = (finish exSt7 exTask7, false) :=
  (finishTaskRun_cases exSt7 exTask7 id).2.1 [5] (by decide) (by decide)
    (Or.inl (by decide))

/-- C8: `addTask` with a validation key fails (transaction aborted with the
validation error, writing nothing) exactly when the store holds no value at
the key; otherwise it first sets `_validkey`/`_validvalue` on the task and
then writes the task's rows. -/
theorem addTask_validation_behavior (maxPriority : Nat) (st : Store) (task : Task)
    (vKey uid : Bytes) :
    (actorAddTask maxPriority st task vKey uid = Except.error () ↔
      kvGet st.userKV vKey = none)
    ∧ (∀ vValue, kvGet st.userKV vKey = some vValue →
        actorAddTask maxPriority st task vKey uid =
          Except.ok (addTask maxPriority st
            { task with params := setValidationCondition task.params vKey vValue }
            uid)) := by
  constructor
  · rcases h : kvGet st.userKV vKey with _ | vv
    · simp [actorAddTask, h]
    · simp [actorAddTask, h]
  · intro vValue h
    simp [actorAddTask, h]

/-- Witness for C8: adding `exTask8` with validation key `05` on `exSt8`
succeeds and stamps `_validkey = 05`, `_validvalue = 06`. -/
theorem addTask_validation_behavior_witness :
    actorAddTask 3 exSt8 exTask8 [5] [9] =
      Except.ok (addTask 3 exSt8
        { exTask8 with params := setValidationCondition exTask8.params [5] [6] } [9]) :=
  (addTask_validation_behavior 3 exSt8 exTask8 [5] [9]).2 [6] (by decide)

/-- C10: `getTaskCount` returns 0 when `task_count` is absent; when present
with exactly 8 bytes it returns the little-endian value read as a signed
two's-complement 64-bit integer; any other length fails the assertion. -/
theorem getTaskCount_behavior (st : Store) :
    (st.taskCount = none → getTaskCount st = some 0)
    ∧ (∀ v, st.taskCount = some v → v.length = 8 →
        getTaskCount st = some (((toNatLE v : Int) + 2 ^ 63) % 2 ^ 64 - 2 ^ 63))
    ∧ (∀ v, st.taskCount = some v → v.length ≠ 8 → getTaskCount st = none) := by
  refine ⟨fun h => by simp [getTaskCount, h], fun v hv hlen => ?_,
    fun v hv hlen => by simp [getTaskCount, hv, hlen]⟩
  have h256 : (256 : Nat) ^ 8 = 2 ^ 64 := by norm_num
  have hlt : toNatLE v < 2 ^ 64 := by
    have h1 := toNatLE_lt v
    rw [hlen, h256] at h1
    exact h1
  have p63 : (2 : Int) ^ 63 = 9223372036854775808 := by norm_num
  have p64 : (2 : Int) ^ 64 = 18446744073709551616 := by norm_num
  have hlt2 : (toNatLE v : Int) < 9223372036854775808 * 2 := by exact_mod_cast
    (by rw [show (2:Nat) ^ 64 = 9223372036854775808 * 2 by norm_num] at hlt; exact hlt)
  simp only [getTaskCount, hv, hlen, if_true, decodeInt64LE, Nat.mod_eq_of_lt hlt,
    Option.some.injEq, p63, p64]
  rcases Nat.lt_or_ge (toNatLE v) (2 ^ 63) with hc | hc
  · rw [if_pos hc]
    have hc2 : (toNatLE v : Int) < 9223372036854775808 := by exact_mod_cast
      (by rw [show (2:Nat) ^ 63 = 9223372036854775808 by norm_num] at hc; exact hc)
    omega
  · rw [if_neg (Nat.not_lt.mpr hc)]
    have hc2 : (9223372036854775808 : Int) ≤ (toNatLE v : Int) := by exact_mod_cast
      (by rw [show (2:Nat) ^ 63 = 9223372036854775808 by norm_num] at hc; exact hc)
    omega

/-- Witness for C10: the stored 8-byte encoding of 5 decodes to 5 through
the signed little-endian reading. -/
theorem getTaskCount_behavior_witness :
    getTaskCount exSt10
      = some (((toNatLE (encodeLE 8 5) : Int) + 2 ^ 63) % 2 ^ 64 - 2 ^ 63) :=
  (getTaskCount_behavior exSt10).2.1 (encodeLE 8 5) rfl (by decide)

/-- C2 (code bug): `performAllActions` on a `cb/` sub-space holding two
callbacks under distinct callback UIDs merges both parameter maps into one
(the later callback's bindings overwrite the earlier's) and invokes only one
finish hook, whereas the spec's per-callback grouping would reconstruct two
maps and invoke each callback once. -/
theorem performAllActions_merges_callbacks :
    (performAllActions exRegistry exCbRows).2.length = 1
    ∧ (performAllActionsSpec exRegistry exCbRows).length = 2
    ∧ (performAllActions exRegistry exCbRows).1
        = [([98], [2]), ([99], [70]), (keyTypeName, [10])]
    ∧ performAllActionsSpec exRegistry exCbRows
        = [callbackParams [1] exCbRows, callbackParams [2] exCbRows] := by decide

/-- C4 counterexample: with `MAX_TASK_KEYS = 1` and a single timed-out task
whose two rows exceed the scan limit, `requeueTimedOutTasks` returns `true`
although it moved nothing and left the store unchanged. -/
theorem requeue_true_without_moving :
    requeueTimedOutTasks exKnobs4 exSt4 0 = some (true, exSt4) := by decide

/-! ### Requeue scan-loop lemmas -/

theorem applyAvpWrites_timeouts (st : Store) (ws : List Row) :
    (applyAvpWrites st ws).timeouts = st.timeouts := by
  rw [applyAvpWrites_eq]

theorem applyAvpWrites_taskCount (st : Store) (ws : List Row) :
    (applyAvpWrites st ws).taskCount = st.taskCount := by
  rw [applyAvpWrites_eq]

theorem chainedDistinctUids_cons {a b : List Row} {rest : List (List Row)}
    (h : chainedDistinctUids (a :: b :: rest) = true) :
    groupUid a ≠ groupUid b ∧ chainedDistinctUids (b :: rest) = true := by
  simpa [chainedDistinctUids, Bool.and_eq_true] using h

theorem groupsWF_iff (gs : List (List Row)) :
    groupsWF gs = true ↔
      (∀ g ∈ gs, g ≠ [])
      ∧ (∀ g ∈ gs, ∀ r ∈ g, r.1.2.1 = groupUid g)
      ∧ chainedDistinctUids gs = true
      ∧ (∀ g ∈ gs, groupUid g ≠ []) := by
  simp [groupsWF, List.all_eq_true, Bool.and_eq_true, and_assoc, List.isEmpty_iff]

theorem groupsWF_tail {g : List Row} {rest : List (List Row)}
    (h : groupsWF (g :: rest) = true) : groupsWF rest = true := by
  rw [groupsWF_iff] at h ⊢
  obtain ⟨h1, h2, h3, h4⟩ := h
  refine ⟨fun x hx => h1 x (by simp [hx]), fun x hx => h2 x (by simp [hx]), ?_,
    fun x hx => h4 x (by simp [hx])⟩
  cases rest with
  | nil => rfl
  | cons b rest2 => exact (chainedDistinctUids_cons h3).2

theorem requeueFold_sameUid (maxPri : Nat) (rows : List Row) (acc : RAcc)
    (h : ∀ r ∈ rows, r.1.2.1 = acc.key) :
    rows.foldl (requeueStep maxPri) acc =
      { acc with
        params := rows.foldl (fun ps r => Params.set ps r.1.2.2 r.2) acc.params } := by
  induction rows generalizing acc with
  | nil => rfl
  | cons r rest ih =>
    have hr : r.1.2.1 = acc.key := h r (by simp)
    have hstep : requeueStep maxPri acc r
        = { acc with params := Params.set acc.params r.1.2.2 r.2 } := by
      simp [requeueStep, hr]
    rw [List.foldl_cons, List.foldl_cons, hstep]
    exact ih { acc with params := Params.set acc.params r.1.2.2 r.2 }
      (fun r2 hr2 => h r2 (by simp [hr2]))

theorem requeueFold_group (maxPri : Nat) (g : List Row) (acc : RAcc) (hne : g ≠ [])
    (huid : ∀ r ∈ g, r.1.2.1 = groupUid g) (hkey : acc.key ≠ groupUid g) :
    g.foldl (requeueStep maxPri) acc =
      { key := groupUid g, params := groupParams g, lastKey := some (firstRowKey g),
        writes := acc.writes ++ flushWrites maxPri acc.key acc.params } := by
  cases g with
  | nil => exact absurd rfl hne
  | cons r rest =>
    have hr : r.1.2.1 = groupUid (r :: rest) := huid r (by simp)
    have hcond : r.1.2.1 ≠ acc.key := by rw [hr]; exact Ne.symm hkey
    have hstep : requeueStep maxPri acc r
        = { key := r.1.2.1, params := Params.set [] r.1.2.2 r.2, lastKey := some r.1,
            writes := acc.writes ++ flushWrites maxPri acc.key acc.params } := by
      simp only [requeueStep, if_pos hcond]
    rw [List.foldl_cons, hstep,
      requeueFold_sameUid maxPri rest _
        (fun r2 hr2 => by rw [huid r2 (by simp [hr2])]; rfl)]
    rfl

theorem requeueFold_groups (maxPri : Nat) (gs : List (List Row)) :
    ∀ acc : RAcc, gs ≠ [] → groupsWF gs = true →
      (∀ g, gs.head? = some g → acc.key ≠ groupUid g) →
      gs.flatten.foldl (requeueStep maxPri) acc =
        { key := groupUid (lastGroup gs),
          params := groupParams (lastGroup gs),
          lastKey := some (firstRowKey (lastGroup gs)),
          writes := acc.writes ++ flushWrites maxPri acc.key acc.params
            ++ gs.dropLast.flatMap (groupFlush maxPri) } := by
  induction gs with
  | nil => exact fun acc h => absurd rfl h
  | cons g rest ih =>
    intro acc _ hwf hkey
    obtain ⟨h1, h2, h3, _⟩ := (groupsWF_iff _).mp hwf
    have hg : g ≠ [] := h1 g (by simp)
    have hgu : ∀ r ∈ g, r.1.2.1 = groupUid g := h2 g (by simp)
    rw [List.flatten_cons, List.foldl_append,
      requeueFold_group maxPri g acc hg hgu (hkey g rfl)]
    cases rest with
    | nil =>
      simp [lastGroup, groupFlush]
    | cons g2 rest2 =>
      have hkey2 : ∀ h2g, (g2 :: rest2).head? = some h2g →
          ({ key := groupUid g, params := groupParams g,
             lastKey := some (firstRowKey g),
             writes := acc.writes ++ flushWrites maxPri acc.key acc.params } : RAcc).key
            ≠ groupUid h2g := by
        intro h2g hh2
        have : h2g = g2 := by injection hh2 with h; exact h.symm
        subst this
        exact (chainedDistinctUids_cons h3).1
      rw [ih _ (by simp) (groupsWF_tail hwf) hkey2]
      simp only [lastGroup, List.getLast?_cons_cons, List.dropLast_cons₂,
        List.flatMap_cons, groupFlush]
      simp [List.append_assoc]

theorem flatten_ne_nil {gs : List (List Row)} (hne : gs ≠ [])
    (h1 : ∀ g ∈ gs, g ≠ []) : gs.flatten ≠ [] := by
  cases gs with
  | nil => exact absurd rfl hne
  | cons g rest =>
    have hg : g ≠ [] := h1 g (by simp)
    cases g with
    | nil => exact absurd rfl hg
    | cons r g2 => simp

theorem requeue_nomore_inv (kn : Knobs) (st : Store) (endVersion : Nat)
    (h : (timedOutRange st endVersion).length ≤ kn.maxTaskKeys)
    (b : Bool) (st' : Store)
    (heq : requeueTimedOutTasks kn st endVersion = some (b, st')) :
    st'.timeouts = st.timeouts.filter (fun r => !(decide (r.1.1 ≤ endVersion)))
    ∧ b = !(timedOutRange st endVersion).isEmpty := by
  have hmore : decide (kn.maxTaskKeys < (timedOutRange st endVersion).length) = false :=
    decide_eq_false (Nat.not_lt.mpr h)
  simp only [requeueTimedOutTasks] at heq
  rw [List.take_of_length_le h, hmore] at heq
  rw [if_neg (by simp : ¬ ((false : Bool) = true))] at heq
  by_cases hv : timedOutRange st endVersion = []
  · have hfe : st.timeouts.filter (fun r => !(decide (r.1.1 ≤ endVersion))) = st.timeouts := by
      rw [List.filter_eq_self]
      intro r hr
      have h2 := (List.filter_eq_nil.mp hv) r hr
      simp only [Bool.not_eq_true'] at h2 ⊢
      simp [h2]
    rw [hv] at heq
    simp only [List.isEmpty_nil, List.foldl_nil, if_true, applyAvpWrites, flushWrites,
      List.map_nil, Option.some.injEq, Prod.mk.injEq] at heq
    obtain ⟨hb, hst⟩ := heq
    refine ⟨?_, ?_⟩
    · rw [← hst, hfe]
    · rw [← hb, hv]
      rfl
  · have hie : (timedOutRange st endVersion).isEmpty = false := by
      simp [List.isEmpty_iff, hv]
    rw [if_neg (by simp [hie])] at heq
    simp only [Option.some.injEq, Prod.mk.injEq] at heq
    obtain ⟨hb, hst⟩ := heq
    refine ⟨?_, ?_⟩
    · rw [← hst]
      simp only [applyAvpWrites_timeouts]
    · rw [← hb, hie, Bool.not_false]

theorem requeue_more_spec (kn : Knobs) (st : Store) (endVersion : Nat)
    (gs : List (List Row)) (hmore : kn.maxTaskKeys < (timedOutRange st endVersion).length)
    (hne : gs ≠ []) (hwf : groupsWF gs = true)
    (hflat : (timedOutRange st endVersion).take kn.maxTaskKeys = gs.flatten) :
    requeueTimedOutTasks kn st endVersion
      = some (true,
        { applyAvpWrites st (gs.dropLast.flatMap (groupFlush kn.maxPriority)) with
          timeouts := st.timeouts.filter
            (fun r => !(keyLt r.1 (lastGroupFirstKey gs))) }) := by
  simp only [requeueTimedOutTasks]
  have hm : decide (kn.maxTaskKeys < (timedOutRange st endVersion).length) = true :=
    decide_eq_true hmore
  obtain ⟨_, _, _, h4⟩ := (groupsWF_iff _).mp hwf
  have hkey0 : ∀ g, gs.head? = some g →
      (⟨[], [], none, []⟩ : RAcc).key ≠ groupUid g := by
    intro g hg
    have hmem : g ∈ gs := by
      cases gs with
      | nil => simp at hg
      | cons a rest =>
        have : g = a := by injection hg with h; exact h.symm
        subst this; simp
    exact Ne.symm (h4 g hmem)
  rw [hflat, requeueFold_groups kn.maxPriority gs ⟨[], [], none, []⟩ hne hwf hkey0, hm]
  have hbridge : lastGroupFirstKey gs = firstRowKey (lastGroup gs) := by
    unfold lastGroupFirstKey lastGroup
    cases gs.getLast? <;> rfl
  simp only [if_true]
  rw [hbridge]
  have hw : ((⟨[], [], none, []⟩ : RAcc).writes
      ++ flushWrites kn.maxPriority (⟨[], [], none, []⟩ : RAcc).key
        (⟨[], [], none, []⟩ : RAcc).params
      ++ gs.dropLast.flatMap (groupFlush kn.maxPriority))
      = gs.dropLast.flatMap (groupFlush kn.maxPriority) := by
    simp [flushWrites]
  rw [hw]
  congr 1
  rw [Prod.mk.injEq]
  refine ⟨rfl, ?_⟩
  congr 1
  rw [applyAvpWrites_timeouts]

theorem requeue_nomore_groups_spec (kn : Knobs) (st : Store) (endVersion : Nat)
    (gs : List (List Row)) (h : (timedOutRange st endVersion).length ≤ kn.maxTaskKeys)
    (hne : gs ≠ []) (hwf : groupsWF gs = true)
    (hflat : (timedOutRange st endVersion).take kn.maxTaskKeys = gs.flatten) :
    requeueTimedOutTasks kn st endVersion
      = some (true,
        { applyAvpWrites st (gs.flatMap (groupFlush kn.maxPriority)) with
          timeouts := st.timeouts.filter
            (fun r => !(decide (r.1.1 ≤ endVersion))) }) := by
  simp only [requeueTimedOutTasks]
  have hmore : decide (kn.maxTaskKeys < (timedOutRange st endVersion).length) = false :=
    decide_eq_false (Nat.not_lt.mpr h)
  obtain ⟨h1, _, _, h4⟩ := (groupsWF_iff _).mp hwf
  have hkey0 : ∀ g, gs.head? = some g →
      (⟨[], [], none, []⟩ : RAcc).key ≠ groupUid g := by
    intro g hg
    have hmem : g ∈ gs := by
      cases gs with
      | nil => simp at hg
      | cons a rest =>
        have : g = a := by injection hg with hh; exact hh.symm
        subst this; simp
    exact Ne.symm (h4 g hmem)
  rw [hflat, requeueFold_groups kn.maxPriority gs ⟨[], [], none, []⟩ hne hwf hkey0, hmore]
  have hfl : gs.flatten ≠ [] := flatten_ne_nil hne h1
  simp only [Bool.false_eq_true, if_false]
  rw [if_neg (by simp [List.isEmpty_iff, hfl])]
  have hlg : gs.dropLast.flatMap (groupFlush kn.maxPriority)
      ++ groupFlush kn.maxPriority (lastGroup gs)
      = gs.flatMap (groupFlush kn.maxPriority) := by
    have hdg : gs.dropLast ++ [gs.getLast hne] = gs := List.dropLast_append_getLast hne
    have hlast : lastGroup gs = gs.getLast hne := by
      unfold lastGroup
      rw [List.getLast?_eq_getLast gs hne]
      rfl
    rw [hlast]
    calc gs.dropLast.flatMap (groupFlush kn.maxPriority)
          ++ groupFlush kn.maxPriority (gs.getLast hne)
        = (gs.dropLast ++ [gs.getLast hne]).flatMap (groupFlush kn.maxPriority) := by
          rw [List.flatMap_append]; simp
      _ = gs.flatMap (groupFlush kn.maxPriority) := by rw [hdg]
  congr 1
  rw [Prod.mk.injEq]
  refine ⟨rfl, ?_⟩
  have happ : applyAvpWrites
      (applyAvpWrites st
        ((⟨[], [], none, []⟩ : RAcc).writes
          ++ flushWrites kn.maxPriority (⟨[], [], none, []⟩ : RAcc).key
            (⟨[], [], none, []⟩ : RAcc).params
          ++ gs.dropLast.flatMap (groupFlush kn.maxPriority)))
      (flushWrites kn.maxPriority (groupUid (lastGroup gs)) (groupParams (lastGroup gs)))
      = applyAvpWrites st (gs.flatMap (groupFlush kn.maxPriority)) := by
    rw [← applyAvpWrites_append, ← hlg]
    congr 1
  rw [happ]
  congr 1
  rw [applyAvpWrites_timeouts]

/-- C4 (amended): `requeueTimedOutTasks` clears the entire scanned range
`to/0 .. to/<readVersion>` when the scan reported no more rows, and clears
only the consumed prefix `range.begin .. lastKey` — `lastKey` being the
first key of the last, partially seen, UID group, whose trailing rows stay
for the next invocation — when the scan reported more; its return value,
however, is `true` iff the scan returned at least one row, even when no
complete row group was moved. -/
theorem requeue_clear_behavior (kn : Knobs) (st : Store) (endVersion : Nat)
    (gs : List (List Row)) :
    ((timedOutRange st endVersion).length ≤ kn.maxTaskKeys →
      ∀ b st', requeueTimedOutTasks kn st endVersion = some (b, st') →
        st'.timeouts = st.timeouts.filter (fun r => !(decide (r.1.1 ≤ endVersion)))
          ∧ b = !(timedOutRange st endVersion).isEmpty)
    ∧ (kn.maxTaskKeys < (timedOutRange st endVersion).length →
        gs ≠ [] → groupsWF gs = true →
        (timedOutRange st endVersion).take kn.maxTaskKeys = gs.flatten →
        requeueTimedOutTasks kn st endVersion
          = some (true,
            { applyAvpWrites st (gs.dropLast.flatMap (groupFlush kn.maxPriority)) with
              timeouts := st.timeouts.filter
                (fun r => !(keyLt r.1 (lastGroupFirstKey gs))) }))
    ∧ (∀ b st', requeueTimedOutTasks kn st endVersion = some (b, st') →
        (b = true ↔ (timedOutRange st endVersion).take kn.maxTaskKeys ≠ [])) := by
  refine ⟨fun h b st' heq => requeue_nomore_inv kn st endVersion h b st' heq,
    fun hmore hne hwf hflat => requeue_more_spec kn st endVersion gs hmore hne hwf hflat,
    ?_⟩
  intro b st' heq
  by_cases hm : kn.maxTaskKeys < (timedOutRange st endVersion).length
  · simp only [requeueTimedOutTasks] at heq
    rw [decide_eq_true hm, if_pos rfl] at heq
    rcases hlk : (((timedOutRange st endVersion).take kn.maxTaskKeys).foldl
        (requeueStep kn.maxPriority) ⟨[], [], none, []⟩).lastKey with _ | lk
    · rw [hlk] at heq
      simp at heq
    · rw [hlk] at heq
      simp only [Option.some.injEq, Prod.mk.injEq] at heq
      obtain ⟨hb, _⟩ := heq
      constructor
      · intro _ hvnil
        rw [hvnil] at hlk
        simp at hlk
      · intro _
        exact hb.symm
  · have h2 := requeue_nomore_inv kn st endVersion (Nat.not_lt.mp hm) b st' heq
    rw [List.take_of_length_le (Nat.not_lt.mp hm), h2.2]
    simp [List.isEmpty_iff]

/-- Witness for C4: on `exSt9` (three rows, all timed out, scan uncut) the
whole range is cleared and `true` is returned. -/
theorem requeue_clear_behavior_witness :
    exSt9After.timeouts = exSt9.timeouts.filter (fun r => !(decide (r.1.1 ≤ 10)))
    ∧ (true : Bool) = !(timedOutRange exSt9 10).isEmpty :=
  (requeue_clear_behavior exKnobs9 exSt9 10 exGs9).1 (by decide) true exSt9After (by decide)

/-- C9: every complete UID group moved back by `requeueTimedOutTasks` is
written to `avp/<p>/` where `p` is `getPriority` of the parameter map the
group's rows carry — the `priority` parameter the task carried when it was
claimed, clamped to `MAX_PRIORITY`, and 0 when the parameter is absent. -/
theorem requeue_preserves_priority (kn : Knobs) (st : Store) (endVersion : Nat)
    (gs : List (List Row)) (hne : gs ≠ []) (hwf : groupsWF gs = true)
    (hflat : (timedOutRange st endVersion).take kn.maxTaskKeys = gs.flatten) :
    (∀ b st', requeueTimedOutTasks kn st endVersion = some (b, st') →
      st'.avp = (applyAvpWrites st
        ((if kn.maxTaskKeys < (timedOutRange st endVersion).length then gs.dropLast
          else gs).flatMap (groupFlush kn.maxPriority))).avp)
    ∧ (∀ g, groupFlush kn.maxPriority g = (groupParams g).map
        (fun p => ((getPriority kn.maxPriority (groupParams g), groupUid g, p.1), p.2)))
    ∧ (∀ ps, Params.get ps keyPriorityName = none → getPriority kn.maxPriority ps = 0)
    ∧ (∀ ps n, n < 2 ^ 63 → (kn.maxPriority : Int) < 2 ^ 32 →
        Params.get ps keyPriorityName = some (encodeLE 8 n) →
        getPriority kn.maxPriority ps = min n kn.maxPriority) := by
  refine ⟨?_, fun g => rfl, fun ps h => by simp [getPriority, h], ?_⟩
  · intro b st' heq
    by_cases hm : kn.maxTaskKeys < (timedOutRange st endVersion).length
    · rw [requeue_more_spec kn st endVersion gs hm hne hwf hflat] at heq
      simp only [Option.some.injEq, Prod.mk.injEq] at heq
      obtain ⟨_, hst⟩ := heq
      rw [← hst, if_pos hm]
    · rw [requeue_nomore_groups_spec kn st endVersion gs (Nat.not_lt.mp hm) hne hwf
        hflat] at heq
      simp only [Option.some.injEq, Prod.mk.injEq] at heq
      obtain ⟨_, hst⟩ := heq
      rw [← hst, if_neg hm]
  · intro ps n hn hmaxlt hp
    simp only [getPriority, hp]
    rw [decodeInt64LE_encodeLE n hn]
    have hmin : min ((n : Nat) : Int) ((kn.maxPriority : Nat) : Int)
        = ((min n kn.maxPriority : Nat) : Int) := by
      rw [Nat.cast_min]
    rw [hmin]
    have hnonneg : (0 : Int) ≤ ((min n kn.maxPriority : Nat) : Int) :=
      Int.natCast_nonneg _
    have hlt : ((min n kn.maxPriority : Nat) : Int) < 2 ^ 32 :=
      lt_of_le_of_lt (by exact_mod_cast min_le_right n kn.maxPriority) hmaxlt
    rw [Int.emod_eq_of_lt hnonneg hlt, Int.toNat_ofNat]

/-- Witness for C9: requeuing `exSt9` writes uid `01`'s rows to band 2 (its
carried `priority` parameter) and uid `02`'s rows to band 0. -/
theorem requeue_preserves_priority_witness :
    exSt9After.avp = (applyAvpWrites exSt9 (exGs9.flatMap (groupFlush 3))).avp :=
  (requeue_preserves_priority exKnobs9 exSt9 10 exGs9 (by decide) (by decide)
    (by decide)).1 true exSt9After (by decide)

/-! ### Dequeue (`getOne`) lemmas -/

theorem requeue_empty_timeouts (kn : Knobs) (st : Store) (endVersion : Nat)
    (h : st.timeouts = []) :
    requeueTimedOutTasks kn st endVersion = some (false, st) := by
  simp only [requeueTimedOutTasks, timedOutRange, h]
  simp [applyAvpWrites, flushWrites]

theorem findSome?_unique_some {α β : Type} (l : List α) (f : α → Option β) (a : α)
    (b : β) (ha : a ∈ l) (hfa : f a = some b)
    (hothers : ∀ x ∈ l, x ≠ a → f x = none) :
    l.findSome? f = some b := by
  induction l with
  | nil => simp at ha
  | cons x xs ih =>
    rw [List.findSome?_cons]
    by_cases hx : x = a
    · subst hx
      rw [hfa]
    · rw [hothers x (by simp) hx]
      show xs.findSome? f = some b
      apply ih
      · rcases List.mem_cons.mp ha with h | h
        · exact absurd h.symm hx
        · exact h
      · exact fun y hy => hothers y (by simp [hy])

theorem avpUidKeys_built (ukv : List (Bytes × Bytes)) (tos : List Row)
    (cnt acv : Option Bytes) (ps : Params) (pri : Nat) (uid : Bytes) (p' : Nat) :
    avpUidKeys ⟨ukv, ps.map (fun p => ((pri, uid, p.1), p.2)), tos, cnt, acv⟩ p'
      = if p' = pri then ps.map (fun p => (uid, p.1)) else [] := by
  simp only [avpUidKeys, List.filterMap_map]
  by_cases h : p' = pri
  · subst h
    rw [if_pos rfl]
    induction ps with
    | nil => rfl
    | cons p ps ih => simp [ih]
  · rw [if_neg h]
    have h2 : pri ≠ p' := Ne.symm h
    induction ps with
    | nil => rfl
    | cons p ps ih => simp [ih, h2]

theorem taskRows_built (ukv : List (Bytes × Bytes)) (tos : List Row)
    (cnt acv : Option Bytes) (ps : Params) (pri : Nat) (uid : Bytes) :
    taskRows ⟨ukv, ps.map (fun p => ((pri, uid, p.1), p.2)), tos, cnt, acv⟩ pri uid
      = ps := by
  simp only [taskRows, List.filterMap_map]
  induction ps with
  | nil => rfl
  | cons p ps ih => simp [ih]

theorem getTaskKey_nil (st : Store) (pri : Nat) (probe : Bytes)
    (h : avpUidKeys st pri = []) : getTaskKey st pri probe = none := by
  simp [getTaskKey, h]

theorem getTaskKey_single_uid (st : Store) (pri : Nat) (probe uid : Bytes)
    (names : List Bytes) (hne : names ≠ [])
    (h : avpUidKeys st pri = names.map (fun nm => (uid, nm))) :
    ∃ x, getTaskKey st pri probe = some (uid, x) := by
  have hlast : ∃ x, (names.map fun nm => ((uid, nm) : Bytes × Bytes)).getLast?
      = some (uid, x) := by
    rcases hn : names.getLast? with _ | y
    · rw [List.getLast?_eq_none_iff] at hn
      exact absurd hn hne
    · exact ⟨y, by rw [List.getLast?_map, hn]; rfl⟩
  obtain ⟨x, hx⟩ := hlast
  simp only [getTaskKey, h]
  by_cases hu : bytesLt uid probe = true
  · have hfe : (names.map fun nm => ((uid, nm) : Bytes × Bytes)).filter
        (fun k => bytesLt k.1 probe)
        = names.map fun nm => ((uid, nm) : Bytes × Bytes) := by
      rw [List.filter_eq_self]
      intro k hk
      obtain ⟨nm, _, rfl⟩ := List.mem_map.mp hk
      simpa using hu
    refine ⟨x, ?_⟩
    rw [hfe, hx]
  · have hfil : (names.map fun nm => ((uid, nm) : Bytes × Bytes)).filter
        (fun k => bytesLt k.1 probe) = [] := by
      rw [List.filter_eq_nil]
      intro k hk
      obtain ⟨nm, _, rfl⟩ := List.mem_map.mp hk
      simpa using hu
    refine ⟨x, ?_⟩
    rw [hfil]
    simp only [List.getLast?_nil]
    rw [hx]

theorem addTask_empty_avp (maxPriority : Nat) (ukv : List (Bytes × Bytes))
    (cnt acv : Option Bytes) (task : Task) (uid : Bytes)
    (hsorted : paramsSorted task.params = true) :
    addTask maxPriority ⟨ukv, [], [], cnt, acv⟩ task uid
      = (⟨ukv, task.params.map
          (fun p => ((getPriority maxPriority task.params, uid, p.1), p.2)), [],
          some (atomicAdd cnt oneLE), acv⟩, uid) := by
  have h1 : task.params.foldl
      (fun s p => { s with
        avp := rowSet s.avp (getPriority maxPriority task.params, uid, p.1) p.2 })
      (⟨ukv, [], [], cnt, acv⟩ : Store)
      = { (⟨ukv, [], [], cnt, acv⟩ : Store) with
          avp := task.params.foldl
            (fun a p => rowSet a (getPriority maxPriority task.params, uid, p.1) p.2)
            [] } :=
    foldl_avp_update task.params _
      (fun a p => rowSet a (getPriority maxPriority task.params, uid, p.1) p.2)
  simp only [addTask]
  rw [h1, rowsSetAll_sorted _ _ _ hsorted]

/-- C5 (amended): every task handle `getOne` returns carries the lease
`(uint64) V + (uint64) (timeoutVersions * jitter)` where the jitter factor is
`JITTER_OFFSET + JITTER_RANGE * r` — the multiplier is the jitter itself, not
`1 + jitter` — and for a draw `r ∈ [0, 1]` (with `JITTER_RANGE ≥ 0`) that
factor lies in `[JITTER_OFFSET, JITTER_OFFSET + JITTER_RANGE]`. -/
theorem getOne_lease_formula (kn : Knobs) (version : Nat) (probes : Nat → Bytes)
    (checkTimeouts : Bool) (r : ℚ) (activeId : Bytes) :
    ∀ (fuel : Nat) (st : Store) (task : Task) (st' : Store),
      getOneAux kn version probes checkTimeouts r activeId fuel st
        = some (some task, st') →
      task.timeout = (version + (Int.floor ((kn.timeoutVersions : ℚ)
          * (kn.jitterOffset + kn.jitterRange * r))).toNat) % 2 ^ 64
      ∧ (0 ≤ r → r ≤ 1 → 0 ≤ kn.jitterRange →
          kn.jitterOffset ≤ kn.jitterOffset + kn.jitterRange * r
          ∧ kn.jitterOffset + kn.jitterRange * r ≤ kn.jitterOffset + kn.jitterRange) := by
  intro fuel
  induction fuel with
  | zero =>
    intro st task st' h
    simp [getOneAux] at h
  | succ n ih =>
    intro st task st' h
    have hjit : 0 ≤ r → r ≤ 1 → 0 ≤ kn.jitterRange →
        kn.jitterOffset ≤ kn.jitterOffset + kn.jitterRange * r
        ∧ kn.jitterOffset + kn.jitterRange * r ≤ kn.jitterOffset + kn.jitterRange := by
      intro h0 h1 hr
      constructor
      · nlinarith [mul_nonneg hr h0]
      · nlinarith [mul_le_of_le_one_right hr h1]
    refine ⟨?_, hjit⟩
    simp only [getOneAux] at h
    rcases hc : (if checkTimeouts then requeueTimedOutTasks kn st version
        else some (false, st)) with _ | res
    · rw [hc] at h
      simp at h
    · rw [hc] at h
      rw [Option.some_bind] at h
      rcases hfound : (List.range (kn.maxPriority + 1)).reverse.findSome?
          (fun pri => (getTaskKey res.2 pri (probes pri)).map (fun k => (pri, k)))
        with _ | pk
      · rw [hfound] at h
        rcases hrq : requeueTimedOutTasks kn res.2 version with _ | res2
        · rw [hrq] at h
          simp at h
        · rw [hrq] at h
          rw [Option.some_bind] at h
          by_cases hb : res2.1 = true
          · rw [if_pos hb] at h
            exact (ih res2.2 task st' h).1
          · rw [if_neg hb] at h
            simp at h
      · obtain ⟨pri, taskKey⟩ := pk
        rw [hfound] at h
        simp only [Option.some.injEq, Prod.mk.injEq] at h
        obtain ⟨htask, _⟩ := h
        rw [← htask]
        rfl

/-- Witness for C5 (amended): the lease of the task claimed from `exSt5` is
exactly the jittered formula, and the jitter factor stays within its band. -/
theorem getOne_lease_formula_witness :
    exTask5.timeout = (0 + (Int.floor (((10 : Nat) : ℚ)
        * (9 / 10 + (1 / 5) * 0))).toNat) % 2 ^ 64
    ∧ (0 ≤ (0 : ℚ) → (0 : ℚ) ≤ 1 → 0 ≤ (1 / 5 : ℚ) →
        (9 / 10 : ℚ) ≤ 9 / 10 + (1 / 5) * 0
        ∧ (9 / 10 : ℚ) + (1 / 5) * 0 ≤ 9 / 10 + 1 / 5) :=
  getOne_lease_formula exKnobs5 0 (fun _ => [50]) false 0 [9] 1 exSt5 exTask5
    exSt5After rfl

/-- C5 counterexample: at read version 0 with `TIMEOUT_VERSIONS = 10`,
`JITTER_OFFSET = 0.9`, `JITTER_RANGE = 0.2` and draw `r = 0`, the claimed
task's lease is 9 = `0 + 10 * 0.9`, whereas the claim's formula
`V + timeoutVersions * (1 + jitter)` with `jitter = 0.9 + 0.2 * 0` gives
19. -/
theorem lease_formula_counterexample :
    (getOneAux exKnobs5 0 (fun _ => [50]) false 0 [9] 1 exSt5).map
        (fun res => res.1.map (fun t => t.timeout))
      = some (some (leaseTimeout 0 10 (9 / 10) (1 / 5) 0))
    ∧ leaseTimeout 0 10 (9 / 10) (1 / 5) 0 = 9
    ∧ leaseTimeoutSpec 0 10 (9 / 10) (1 / 5) 0 = 19
    ∧ (9 : Nat) ≠ 19 := by
  refine ⟨rfl, ?_, ?_, by decide⟩
  · have hx : Int.floor (((10 : Nat) : ℚ) * (9 / 10 + (1 / 5) * 0)) = 9 := by
      push_cast
      norm_num
    show (0 + (Int.floor (((10 : Nat) : ℚ) * (9 / 10 + (1 / 5) * 0))).toNat) % 2 ^ 64 = 9
    rw [hx]
    rfl
  · have hx : Int.floor (((10 : Nat) : ℚ) * (1 + (9 / 10 + (1 / 5) * 0))) = 19 := by
      push_cast
      norm_num
    show (0 + (Int.floor (((10 : Nat) : ℚ)
        * (1 + (9 / 10 + (1 / 5) * 0)))).toNat) % 2 ^ 64 = 19
    rw [hx]
    rfl

/-- C3: enqueuing a task into an empty bucket and claiming it with `getOne`
in a later transaction yields a task whose in-memory parameter map is
exactly the map enqueued (no reserved key added or dropped; the lease is
carried out-of-band in the handle's `key`/`timeout` fields), and the claim
leaves `task_count` unchanged. -/
theorem addTask_getOne_roundTrip (kn : Knobs) (ukv : List (Bytes × Bytes))
    (cnt acv : Option Bytes) (task : Task) (uid : Bytes) (fuel version : Nat)
    (probes : Nat → Bytes) (checkTimeouts : Bool) (r : ℚ) (activeId : Bytes)
    (hsorted : paramsSorted task.params = true) (hne : task.params ≠ [])
    (hpri : getPriority kn.maxPriority task.params ≤ kn.maxPriority) :
    (getOneAux kn version probes checkTimeouts r activeId (fuel + 1)
        (addTask kn.maxPriority ⟨ukv, [], [], cnt, acv⟩ task uid).1).map
      (fun res => (res.1, res.2.taskCount))
      = some ((some ⟨uid,
            leaseTimeout version kn.timeoutVersions kn.jitterOffset kn.jitterRange r,
            task.params⟩ : Option Task),
          (addTask kn.maxPriority ⟨ukv, [], [], cnt, acv⟩ task uid).1.taskCount) := by
  rw [addTask_empty_avp kn.maxPriority ukv cnt acv task uid hsorted]
  set pri := getPriority kn.maxPriority task.params with hpridef
  set ST : Store := ⟨ukv, task.params.map (fun p => ((pri, uid, p.1), p.2)), [],
    some (atomicAdd cnt oneLE), acv⟩ with hST
  have hSTt : ST.timeouts = [] := rfl
  have hrq : requeueTimedOutTasks kn ST version = some (false, ST) :=
    requeue_empty_timeouts kn ST version hSTt
  have hif : (if checkTimeouts then requeueTimedOutTasks kn ST version
      else some (false, ST)) = some (false, ST) := by
    cases checkTimeouts <;> simp [hrq]
  obtain ⟨x, hgk⟩ := getTaskKey_single_uid ST pri (probes pri) uid
    (task.params.map (fun p => p.1)) (by simpa using hne)
    (by rw [hST, avpUidKeys_built ukv [] (some (atomicAdd cnt oneLE)) acv task.params
          pri uid pri, if_pos rfl, List.map_map]
        rfl)
  have hnone : ∀ p', p' ≠ pri → getTaskKey ST p' (probes p') = none := by
    intro p' hp'
    apply getTaskKey_nil
    rw [hST, avpUidKeys_built ukv [] (some (atomicAdd cnt oneLE)) acv task.params pri
      uid p', if_neg hp']
  have hfound : (List.range (kn.maxPriority + 1)).reverse.findSome?
      (fun p' => (getTaskKey ST p' (probes p')).map (fun k => (p', k)))
      = some (pri, (uid, x)) := by
    apply findSome?_unique_some _ _ pri
    · rw [List.mem_reverse, List.mem_range]
      omega
    · rw [hgk]
      rfl
    · intro p' _ hp'
      rw [hnone p' hp']
      rfl
  have hrows : taskRows ST pri uid = task.params :=
    taskRows_built ukv [] (some (atomicAdd cnt oneLE)) acv task.params pri uid
  have h2 : task.params.foldl
      (fun s pv => { s with timeouts := (rowSet s.timeouts
        (leaseTimeout version kn.timeoutVersions kn.jitterOffset kn.jitterRange r,
          uid, pv.1) pv.2) }) ST
      = { ST with timeouts := (task.params.foldl
          (fun a pv => (rowSet a
            (leaseTimeout version kn.timeoutVersions kn.jitterOffset kn.jitterRange r,
              uid, pv.1) pv.2)) ST.timeouts) } :=
    foldl_timeouts_update task.params ST
      (fun a pv => rowSet a (leaseTimeout version kn.timeoutVersions kn.jitterOffset
        kn.jitterRange r, uid, pv.1) pv.2)
  simp only [getOneAux, hif, Option.some_bind, hfound]
  rw [hrows]
  rw [h2]
  rw [paramsSetAll_sorted task.params hsorted]
  rfl

/-- Witness for C3: the task `{a ↦ 05, priority ↦ 2, x ↦ 06}` added to an
empty bucket is returned by `getOne` with the same parameter map and an
unchanged counter. -/
theorem addTask_getOne_roundTrip_witness :
    (getOneAux exKnobs3 1000 (fun _ => [50]) true (1 / 2) [77] 1
        (addTask 3 ⟨[], [], [], none, none⟩ exTask3 [42]).1).map
      (fun res => (res.1, res.2.taskCount))
      = some ((some ⟨[42], leaseTimeout 1000 10 (9 / 10) (1 / 5) (1 / 2),
          exTask3.params⟩ : Option Task),
        (addTask 3 ⟨[], [], [], none, none⟩ exTask3 [42]).1.taskCount) :=
  addTask_getOne_roundTrip exKnobs3 [] none none exTask3 [42] 0 1000 (fun _ => [50])
    true (1 / 2) [77] (by decide) (by decide) (by decide)

end TaskBucket

